import Mathlib

/-!
Shallow embedding of `src/app.py` (a Flask habit tracker) and proofs of the
spec claims C1..C10.

Modelling conventions:
* A Python `datetime.date` is modelled by its proleptic-Gregorian ordinal
  (`date.toordinal()`), an `Int`.  `timedelta(days=k)` is `+ k`.  Since
  `date(1,1,1)` (ordinal 1) is a Monday, `d.weekday()` (Monday = 0) is
  `(d - 1) % 7` (with the Euclidean `emod`, so the value is in `0..6` for
  every `Int`).
* The SQLAlchemy tables are modelled as lists of rows plus the next
  autoincrement primary keys; `Query.first()` is `List.find?`,
  `session.delete(row)` removes that row (`List.eraseP` of the first match),
  `Query.filter_by(...).delete()` is `List.filter` of the non-matching rows,
  and `session.add` appends a fresh row.
* Handlers that can fail (`get_or_404`, or the `AttributeError` raised by
  `habit.name` when `Habit.query.get` returned `None` in `toggle_completion`)
  return `Except Failure Store`; an error leaves the store unchanged, since
  the exception is raised before any mutation is committed.
* Fractions (`completed_days / 7`) are rational numbers.
-/

/-- Row of the `habit` table (class `Habit` in `app.py`).  `description` is a
nullable column, but every handler writes a concrete string to it
(`add_habit` defaults it to `''`), so it is modelled as `String`.  The column
declaration carries `default='☀️'` for `time_of_day` (commented `# day`). -/
structure Habit where
  id : Nat
  name : String
  description : String
  created_at : Int
  time_of_day : String
deriving DecidableEq

/-- Default of the `time_of_day` column declared on the `Habit` model:
`db.Column(db.String(2), nullable=False, default='☀️')  # day`. -/
def modelDefaultTimeOfDay : String := "☀️"

/-- Row of the `completion` table (class `Completion` in `app.py`), with the
frozen snapshot fields `name`, `description`, `time_of_day`. -/
structure Completion where
  id : Nat
  habit_id : Nat
  date : Int
  completed : Bool
  name : String
  description : String
  time_of_day : String
deriving DecidableEq

/-- The persistent store: the two tables plus their autoincrement counters. -/
structure Store where
  habits : List Habit
  completions : List Completion
  nextHabitId : Nat
  nextCompletionId : Nat
deriving DecidableEq

/-- The store created by `db.create_all()` on a fresh database. -/
def emptyStore : Store := ⟨[], [], 1, 1⟩

/-- Python `d.weekday()` with Monday = 0: `(toordinal(d) - 1) % 7`. -/
def weekday (d : Int) : Int := (d - 1) % 7

/-- `start_of_week = today - timedelta(days=today.weekday())`  (app.py:54). -/
def startOfWeek (today : Int) : Int := today - weekday today

/-- `week_dates = [start_of_week + timedelta(days=i) for i in range(7)]`
(app.py:55). -/
def week_dates (today : Int) : List Int :=
  (List.range 7).map (fun i : Nat => startOfWeek today + (i : Int))

/-- Truthiness of `completed_map.get((hid, d))` where
`completed_map = {(c.habit_id, c.date): True for c in completions}`
(app.py:58): true iff some completion row has this habit id and date. -/
def completedMap (cs : List Completion) (hid : Nat) (d : Int) : Bool :=
  cs.any (fun c => c.habit_id == hid && c.date == d)

/-- `completed_days = sum(1 for d in week_dates if completed_map.get((habit.id, d)))`
(app.py:63). -/
def completed_days (cs : List Completion) (hid : Nat) (today : Int) : Nat :=
  (week_dates today).countP (fun d => completedMap cs hid d)

/-- `habit_progress[habit.id] = completed_days / 7` (app.py:64). -/
def habit_progress (cs : List Completion) (hid : Nat) (today : Int) : ℚ :=
  (completed_days cs hid today : ℚ) / 7

/-- `last_week_dates = [d - timedelta(days=7) for d in week_dates]` (app.py:67). -/
def last_week_dates (today : Int) : List Int :=
  (week_dates today).map (fun d => d - 7)

/-- `completed_days_last = sum(1 for d in last_week_dates if completed_map.get((habit.id, d)))`
(app.py:71). -/
def completed_days_last (cs : List Completion) (hid : Nat) (today : Int) : Nat :=
  (last_week_dates today).countP (fun d => completedMap cs hid d)

/-- `last_week_progress[habit.id] = completed_days_last / 7` (app.py:74). -/
def last_week_progress (cs : List Completion) (hid : Nat) (today : Int) : ℚ :=
  (completed_days_last cs hid today : ℚ) / 7

/-- Trend icon computation (app.py:79-87): `"📈"` if the current fraction
exceeds last week's, `"📉"` if it is below, `"➖"` if they are equal. -/
def trend_icon (cs : List Completion) (hid : Nat) (today : Int) : String :=
  let curr := habit_progress cs hid today
  let last := last_week_progress cs hid today
  if curr > last then "📈" else if curr < last then "📉" else "➖"

/-- Claim-side count for C1, following the spec text: the number of distinct
dates in the 7-day reference window for which a completion row exists. -/
def specWeeklyCount (cs : List Completion) (hid : Nat) (today : Int) : Nat :=
  (((week_dates today).filter (fun d => completedMap cs hid d)).dedup).length

theorem week_dates_nodup (today : Int) : (week_dates today).Nodup := by
  have hinj : Function.Injective (fun i : Nat => startOfWeek today + (i : Int)) := by
    intro a b h
    simp only [] at h
    omega
  exact (List.nodup_range 7).map hinj

theorem week_dates_length (today : Int) : (week_dates today).length = 7 := by
  unfold week_dates
  rw [List.length_map, List.length_range]

theorem completed_days_le_seven (cs : List Completion) (hid : Nat) (today : Int) :
    completed_days cs hid today ≤ 7 := by
  unfold completed_days
  calc (week_dates today).countP (fun d => completedMap cs hid d)
      ≤ (week_dates today).length := List.countP_le_length _
    _ = 7 := week_dates_length today

theorem specWeeklyCount_eq (cs : List Completion) (hid : Nat) (today : Int) :
    specWeeklyCount cs hid today = completed_days cs hid today := by
  unfold specWeeklyCount completed_days
  rw [List.dedup_eq_self.mpr ((week_dates_nodup today).filter _),
    List.countP_eq_length_filter]

/-- C1: for every habit id and every set of completion rows, `habit_progress`
(the weekly fraction computed at app.py:63-64) equals the number of distinct
dates in the 7-day window starting at the reference date minus its weekday
(Monday = 0) that carry a completion row for this habit, divided by 7, and
this value lies in [0,1]. -/
theorem c1_weekly_fraction (cs : List Completion) (hid : Nat) (today : Int) :
    habit_progress cs hid today = (specWeeklyCount cs hid today : ℚ) / 7 ∧
    week_dates today = (List.range 7).map
      (fun i : Nat => (today - weekday today) + (i : Int)) ∧
    0 ≤ habit_progress cs hid today ∧ habit_progress cs hid today ≤ 1 := by
  refine ⟨by rw [habit_progress, specWeeklyCount_eq], rfl, ?_, ?_⟩
  · unfold habit_progress
    positivity
  · unfold habit_progress
    rw [div_le_one (by norm_num)]
    exact_mod_cast completed_days_le_seven cs hid today

/-- C2: the trend icon is `"📈"` (IMPROVED) iff the current weekly fraction
strictly exceeds the prior week's fraction, `"📉"` (WORSENED) iff it is
strictly below, and `"➖"` (FLAT) iff the two fractions are equal; the prior
fraction is computed over the reference-week dates each shifted back exactly
7 days. -/
theorem c2_trend (cs : List Completion) (hid : Nat) (today : Int) :
    last_week_dates today = (week_dates today).map (fun d => d - 7) ∧
    last_week_progress cs hid today
      = (completed_days_last cs hid today : ℚ) / 7 ∧
    (trend_icon cs hid today = "📈" ↔
      last_week_progress cs hid today < habit_progress cs hid today) ∧
    (trend_icon cs hid today = "📉" ↔
      habit_progress cs hid today < last_week_progress cs hid today) ∧
    (trend_icon cs hid today = "➖" ↔
      habit_progress cs hid today = last_week_progress cs hid today) := by
  refine ⟨rfl, rfl, ?_⟩
  simp only [trend_icon, gt_iff_lt]
  by_cases h1 : last_week_progress cs hid today < habit_progress cs hid today
  · rw [if_pos h1]
    exact ⟨⟨fun _ => h1, fun _ => rfl⟩,
      ⟨fun he => absurd he (by decide), fun hc => absurd hc (asymm h1)⟩,
      ⟨fun he => absurd he (by decide), fun hc => absurd hc (ne_of_gt h1)⟩⟩
  · rw [if_neg h1]
    by_cases h2 : habit_progress cs hid today < last_week_progress cs hid today
    · rw [if_pos h2]
      exact ⟨⟨fun he => absurd he (by decide), fun hc => absurd hc h1⟩,
        ⟨fun _ => h2, fun _ => rfl⟩,
        ⟨fun he => absurd he (by decide), fun hc => absurd hc (ne_of_lt h2)⟩⟩
    · rw [if_neg h2]
      have heq : habit_progress cs hid today = last_week_progress cs hid today :=
        le_antisymm (not_lt.mp h1) (not_lt.mp h2)
      exact ⟨⟨fun he => absurd he (by decide), fun hc => absurd hc h1⟩,
        ⟨fun he => absurd he (by decide), fun hc => absurd hc h2⟩,
        ⟨fun _ => heq, fun _ => rfl⟩⟩

/-- Failure modes of the handlers: `notFound` is the 404 aborted by
`get_or_404`; `generic` is any other uncaught exception (in particular the
`AttributeError` raised in `toggle_completion` when `Habit.query.get`
returns `None` and `habit.name` is evaluated, app.py:105-108). -/
inductive Failure where
  | notFound
  | generic
deriving DecidableEq

/-- Predicate used by `toggle_completion`'s
`Completion.query.filter_by(habit_id=habit_id, date=day)` (app.py:112). -/
def completionMatches (hid : Nat) (day : Int) (c : Completion) : Bool :=
  c.habit_id == hid && c.date == day

/-- The row inserted by `toggle_completion` (app.py:116-122): `completed=True`
and the habit's current `name`, `description` and `time_of_day` frozen in. -/
def newCompletionRow (cid : Nat) (hid : Nat) (day : Int) (habit : Habit) :
    Completion :=
  ⟨cid, hid, day, true, habit.name, habit.description, habit.time_of_day⟩

/-- POST `/toggle` (app.py:99-126).  Looks up the habit (`Habit.query.get`);
if it is missing the subsequent `habit.name` raises an `AttributeError`
(a generic failure, not a 404).  Otherwise, if a completion row for
`(habit_id, day)` exists (`.first()`), that row is deleted; else a new row is
inserted with `completed=True` and the habit's current `name`, `description`
and `time_of_day` frozen into it. -/
def toggle_completion (s : Store) (habit_id : Nat) (day : Int) :
    Except Failure Store :=
  match s.habits.find? (fun h => h.id == habit_id) with
  | none => .error .generic
  | some habit =>
    match s.completions.find? (completionMatches habit_id day) with
    | some _ =>
        .ok { s with completions :=
          s.completions.eraseP (completionMatches habit_id day) }
    | none =>
        .ok { s with
          completions := s.completions ++
            [newCompletionRow s.nextCompletionId habit_id day habit],
          nextCompletionId := s.nextCompletionId + 1 }

/-- Week-window test of `reset_week`:
`Completion.date.between(start_of_week, end_of_week)`, both ends inclusive. -/
def inWeekOf (today d : Int) : Prop :=
  startOfWeek today ≤ d ∧ d ≤ startOfWeek today + 6

instance (today d : Int) : Decidable (inWeekOf today d) := by
  unfold inWeekOf
  infer_instance

/-- POST `/reset_week` (app.py:128-141): deletes every completion row whose
date lies between `start_of_week` and `end_of_week = start_of_week + 6`
inclusive. -/
def reset_week (s : Store) (today : Int) : Store :=
  { s with completions :=
      s.completions.filter (fun c => !(decide (inWeekOf today c.date))) }

/-- POST `/add_habit` (app.py:143-151): `description` defaults to `''` and
`time_of_day` defaults to `'⛅️'` when the form fields are absent
(`request.form.get`); a fresh habit row is appended.  `created_at` takes the
column default `date.today` (app.py:22). -/
def add_habit (s : Store) (name : String) (description : Option String)
    (time_of_day : Option String) (today : Int) : Store :=
  { s with
    habits := s.habits ++
      [⟨s.nextHabitId, name, description.getD "", today,
        time_of_day.getD "⛅️"⟩],
    nextHabitId := s.nextHabitId + 1 }

/-- POST `/delete_habit/<habit_id>` (app.py:153-159): `get_or_404` aborts
with 404 when the habit does not exist; otherwise all completion rows with
this `habit_id` are deleted and then the habit row itself. -/
def delete_habit (s : Store) (habit_id : Nat) : Except Failure Store :=
  match s.habits.find? (fun h => h.id == habit_id) with
  | none => .error .notFound
  | some habit =>
      .ok { s with
        completions := s.completions.filter (fun c => !(c.habit_id == habit.id)),
        habits := s.habits.eraseP (fun h => h.id == habit_id) }

/-- Replace the first element satisfying `p` by its image under `f`; this is
the effect of mutating the single row object returned by `get_or_404` and
committing. -/
def modifyFirst (p : α → Bool) (f : α → α) : List α → List α
  | [] => []
  | x :: xs => if p x then f x :: xs else x :: modifyFirst p f xs

/-- POST `/edit_habit/<habit_id>` (app.py:161-170): `get_or_404`, then the
habit's `name`, `description` and `time_of_day` are overwritten from the
form and committed. -/
def edit_habit (s : Store) (habit_id : Nat)
    (name description time_of_day : String) : Except Failure Store :=
  match s.habits.find? (fun h => h.id == habit_id) with
  | none => .error .notFound
  | some _ =>
      let edited := modifyFirst (fun h => h.id == habit_id)
        (fun h => { h with name := name, description := description,
                           time_of_day := time_of_day }) s.habits
      .ok { s with habits := edited }

/-- POST `/update_time_of_day/<habit_id>` (app.py:173-178): `get_or_404`,
then only `time_of_day` is overwritten and committed. -/
def update_time_of_day (s : Store) (habit_id : Nat) (time_of_day : String) :
    Except Failure Store :=
  match s.habits.find? (fun h => h.id == habit_id) with
  | none => .error .notFound
  | some _ =>
      let edited := modifyFirst (fun h => h.id == habit_id)
        (fun h => { h with time_of_day := time_of_day }) s.habits
      .ok { s with habits := edited }

/-- One inbound mutating request. -/
inductive Op where
  | addHabit (name : String) (description : Option String)
      (time_of_day : Option String) (today : Int)
  | toggle (habit_id : Nat) (day : Int)
  | resetWeek (today : Int)
  | deleteHabit (habit_id : Nat)
  | editHabit (habit_id : Nat) (name description time_of_day : String)
  | updateTod (habit_id : Nat) (time_of_day : String)

/-- Effect of one request on the store; a failing request (404 or uncaught
exception before any mutation is committed) leaves the store unchanged. -/
def applyOp (s : Store) : Op → Store
  | .addHabit n d t today => add_habit s n d t today
  | .toggle hid day =>
      match toggle_completion s hid day with
      | .ok s' => s'
      | .error _ => s
  | .resetWeek today => reset_week s today
  | .deleteHabit hid =>
      match delete_habit s hid with
      | .ok s' => s'
      | .error _ => s
  | .editHabit hid n d t =>
      match edit_habit s hid n d t with
      | .ok s' => s'
      | .error _ => s
  | .updateTod hid t =>
      match update_time_of_day s hid t with
      | .ok s' => s'
      | .error _ => s

/-- Run a sequence of requests against a store. -/
def runOps (ops : List Op) (s : Store) : Store := ops.foldl applyOp s

/-- C4 counterexample: calling `add_habit` with only a name creates a habit
whose `time_of_day` is `'⛅️'` (the hardcoded fallback of
`request.form.get('time_of_day', '⛅️')` at app.py:147), which is NOT the
`'☀️'` default declared on the `Habit` model column (app.py:25).  The claim
as stated is therefore false. -/
theorem c4_counterexample :
    ((add_habit emptyStore "Read" none none 739000).habits.map
      (fun h => h.time_of_day)) = ["⛅️"] ∧
    ("⛅️" : String) ≠ modelDefaultTimeOfDay := by
  exact ⟨rfl, by decide⟩

/-- C4 (amended): `add_habit` with only a name creates a habit with empty
description and `time_of_day` equal to the handler's fixed fallback `'⛅️'`;
this fallback differs from the `'☀️'` ("daytime") default declared by the
data model, which is therefore never used by this handler. -/
theorem c4_add_habit_defaults (s : Store) (name : String) (today : Int) :
    (add_habit s name none none today).habits
      = s.habits ++ [⟨s.nextHabitId, name, "", today, "⛅️"⟩] ∧
    ("⛅️" : String) ≠ modelDefaultTimeOfDay :=
  ⟨rfl, by decide⟩

/-- C5 counterexample: a toggle request for a nonexistent habit id does not
produce a NotFound response; `Habit.query.get` returns `None` and the
attribute access `habit.name` (app.py:105-108) raises a generic
`AttributeError` instead. -/
theorem c5_counterexample :
    (∀ h ∈ emptyStore.habits, h.id ≠ 1) ∧
    toggle_completion emptyStore 1 0 = Except.error Failure.generic ∧
    Failure.generic ≠ Failure.notFound := by
  refine ⟨by decide, rfl, by decide⟩

/-- C5 (amended): on a habit id for which no habit exists, delete-habit,
edit-habit and update-time-of-day fail with NotFound (`get_or_404`) and
leave the store unchanged; toggle-completion also leaves the store
unchanged but fails with a generic error (an `AttributeError` on `None`),
not with NotFound. -/
theorem c5_missing_habit (s : Store) (hid : Nat) (d : Int)
    (n ds t : String) (hmiss : ∀ h ∈ s.habits, h.id ≠ hid) :
    toggle_completion s hid d = Except.error Failure.generic ∧
    delete_habit s hid = Except.error Failure.notFound ∧
    edit_habit s hid n ds t = Except.error Failure.notFound ∧
    update_time_of_day s hid t = Except.error Failure.notFound ∧
    applyOp s (Op.toggle hid d) = s ∧
    applyOp s (Op.deleteHabit hid) = s ∧
    applyOp s (Op.editHabit hid n ds t) = s ∧
    applyOp s (Op.updateTod hid t) = s ∧
    Failure.generic ≠ Failure.notFound := by
  have hfind : s.habits.find? (fun h => h.id == hid) = none := by
    rw [List.find?_eq_none]
    intro h hh
    simpa using hmiss h hh
  refine ⟨?_, ?_, ?_, ?_, ?_, ?_, ?_, ?_, by decide⟩ <;>
    simp [toggle_completion, delete_habit, edit_habit, update_time_of_day,
      applyOp, hfind]

/-- C5 witness: the amended statement applied to the empty store and
habit id 1. -/
theorem c5_missing_habit_witness :
    toggle_completion emptyStore 1 0 = Except.error Failure.generic ∧
    delete_habit emptyStore 1 = Except.error Failure.notFound ∧
    edit_habit emptyStore 1 "a" "b" "c" = Except.error Failure.notFound ∧
    update_time_of_day emptyStore 1 "c" = Except.error Failure.notFound ∧
    applyOp emptyStore (Op.toggle 1 0) = emptyStore ∧
    applyOp emptyStore (Op.deleteHabit 1) = emptyStore ∧
    applyOp emptyStore (Op.editHabit 1 "a" "b" "c") = emptyStore ∧
    applyOp emptyStore (Op.updateTod 1 "c") = emptyStore ∧
    Failure.generic ≠ Failure.notFound :=
  c5_missing_habit emptyStore 1 0 "a" "b" "c" (by decide)

/-- C8: `reset_week` deletes exactly the completion rows whose date falls in
the Monday-through-Sunday week containing the reference date and keeps
everything else: the habit table is untouched, the surviving completions are
exactly the original rows outside the window, and the window
`[startOfWeek, startOfWeek + 6]` starts on a Monday (weekday 0), ends on a
Sunday (weekday 6) and contains the reference date. -/
theorem c8_reset_week (s : Store) (today : Int) :
    (reset_week s today).habits = s.habits ∧
    (reset_week s today).completions
      = s.completions.filter (fun c => !(decide (inWeekOf today c.date))) ∧
    (∀ c : Completion, c ∈ (reset_week s today).completions ↔
        (c ∈ s.completions ∧ ¬ inWeekOf today c.date)) ∧
    weekday (startOfWeek today) = 0 ∧
    weekday (startOfWeek today + 6) = 6 ∧
    inWeekOf today today ∧
    (∀ d : Int, inWeekOf today d ↔
        startOfWeek today ≤ d ∧ d ≤ startOfWeek today + 6) := by
  refine ⟨rfl, rfl, ?_, ?_, ?_, ?_, fun d => Iff.rfl⟩
  · intro c
    simp [reset_week, List.mem_filter]
  · simp only [startOfWeek, weekday]
    omega
  · simp only [startOfWeek, weekday]
    omega
  · simp only [inWeekOf, startOfWeek, weekday]
    omega

/-- Store with one habit, used as a concrete input by the C7 witness. -/
def st7 : Store := add_habit emptyStore "Read" none none 739000

/-- Result of editing the habit of `st7`. -/
def st7e : Store := { st7 with habits := [⟨1, "x", "y", 739000, "z"⟩] }

/-- Two successive `/toggle` requests with the same arguments. -/
def toggleTwice (s : Store) (hid : Nat) (d : Int) : Except Failure Store :=
  match toggle_completion s hid d with
  | .ok s1 => toggle_completion s1 hid d
  | .error e => .error e

theorem completionMatches_iff (hid : Nat) (d : Int) (c : Completion) :
    completionMatches hid d c = true ↔ c.habit_id = hid ∧ c.date = d := by
  simp [completionMatches]

/-- If at most one row exists per (habit_id, date) pair, then after erasing
the first row matching a pair no matching row remains. -/
theorem eraseP_matches_none (hid : Nat) (d : Int) :
    ∀ (l : List Completion),
      (l.map (fun c => (c.habit_id, c.date))).Nodup →
      ∀ x ∈ l.eraseP (completionMatches hid d),
        ¬ completionMatches hid d x = true
  | [], _, x, hx, _ => by simp at hx
  | c :: l, hnd, x, hx, hm => by
    rw [List.map_cons, List.nodup_cons] at hnd
    by_cases pc : completionMatches hid d c = true
    · rw [List.eraseP_cons_of_pos pc] at hx
      obtain ⟨hc1, hc2⟩ := (completionMatches_iff hid d c).mp pc
      obtain ⟨hx1, hx2⟩ := (completionMatches_iff hid d x).mp hm
      exact hnd.1 (List.mem_map.mpr ⟨x, hx, by rw [hx1, hx2, hc1, hc2]⟩)
    · rw [List.eraseP_cons_of_neg pc] at hx
      rcases List.mem_cons.mp hx with rfl | hx'
      · exact pc hm
      · exact eraseP_matches_none hid d l hnd.2 x hx' hm


/-- C3 (amended): for a store whose completion table has at most one row per
(habit_id, date) pair, toggling (H, D) twice restores existence: a row for
(H.id, D) exists afterwards iff it existed before, and if none existed the
completion table is literally restored.  If a row existed before, the row
present afterwards is a re-created one whose frozen name, description and
time-of-day equal H's CURRENT fields (app.py:108-110, 116-122); these
coincide with the pre-toggle frozen values exactly when those values already
matched H's current fields, but not in general (H may have been edited after
the original row froze its snapshot). -/
theorem c3_toggle_twice (s : Store) (hid : Nat) (d : Int) (habit : Habit)
    (hhab : s.habits.find? (fun h => h.id == hid) = some habit)
    (hnd : (s.completions.map (fun c => (c.habit_id, c.date))).Nodup) :
    ∃ s2, toggleTwice s hid d = Except.ok s2 ∧ s2.habits = s.habits ∧
      ((∃ c ∈ s2.completions, completionMatches hid d c) ↔
        (∃ c ∈ s.completions, completionMatches hid d c)) ∧
      (s.completions.find? (completionMatches hid d) = none →
        s2.completions = s.completions) ∧
      (∀ c0, s.completions.find? (completionMatches hid d) = some c0 →
        ∃ c2, s2.completions.find? (completionMatches hid d) = some c2 ∧
          c2.name = habit.name ∧ c2.description = habit.description ∧
          c2.time_of_day = habit.time_of_day ∧
          (c0.name = habit.name ∧ c0.description = habit.description ∧
            c0.time_of_day = habit.time_of_day →
            c2.name = c0.name ∧ c2.description = c0.description ∧
              c2.time_of_day = c0.time_of_day)) := by
  have hmnew : ∀ cid : Nat,
      completionMatches hid d (newCompletionRow cid hid d habit) = true :=
    fun cid => by simp [completionMatches, newCompletionRow]
  cases hfind : s.completions.find? (completionMatches hid d) with
  | none =>
    have herase : (s.completions ++
        [newCompletionRow s.nextCompletionId hid d habit]).eraseP
          (completionMatches hid d) = s.completions := by
      rw [List.eraseP_append_right _ (List.find?_eq_none.mp hfind),
        List.eraseP_cons_of_pos (hmnew _), List.append_nil]
    have hfind2 : (s.completions ++
        [newCompletionRow s.nextCompletionId hid d habit]).find?
          (completionMatches hid d)
        = some (newCompletionRow s.nextCompletionId hid d habit) := by
      rw [List.find?_append, hfind, Option.none_or]
      exact List.find?_cons_of_pos _ (hmnew _)
    refine ⟨{ s with
        completions := (s.completions ++
          [newCompletionRow s.nextCompletionId hid d habit]).eraseP
            (completionMatches hid d),
        nextCompletionId := s.nextCompletionId + 1 }, ?_, rfl, ?_, ?_, ?_⟩
    · simp [toggleTwice, toggle_completion, hhab, hfind, hfind2, hmnew]
    · show (∃ c ∈ (s.completions ++
          [newCompletionRow s.nextCompletionId hid d habit]).eraseP
            (completionMatches hid d), completionMatches hid d c = true) ↔ _
      rw [herase]
    · intro _
      exact herase
    · intro c0 hc0
      exact absurd hc0 (by simp)
  | some c0 =>
    have hfind1 : (s.completions.eraseP (completionMatches hid d)).find?
        (completionMatches hid d) = none :=
      List.find?_eq_none.mpr (eraseP_matches_none hid d s.completions hnd)
    have hfind2 : ((s.completions.eraseP (completionMatches hid d)) ++
        [newCompletionRow s.nextCompletionId hid d habit]).find?
          (completionMatches hid d)
        = some (newCompletionRow s.nextCompletionId hid d habit) := by
      rw [List.find?_append, hfind1, Option.none_or]
      exact List.find?_cons_of_pos _ (hmnew _)
    refine ⟨{ s with
        completions := (s.completions.eraseP (completionMatches hid d)) ++
          [newCompletionRow s.nextCompletionId hid d habit],
        nextCompletionId := s.nextCompletionId + 1 }, ?_, rfl, ?_, ?_, ?_⟩
    · simp [toggleTwice, toggle_completion, hhab, hfind, hfind1, hmnew]
    · constructor
      · intro _
        exact ⟨c0, List.mem_of_find?_eq_some hfind, List.find?_some hfind⟩
      · intro _
        refine ⟨newCompletionRow s.nextCompletionId hid d habit, ?_, hmnew _⟩
        exact List.mem_append_right _ (List.mem_singleton_self _)
    · intro h
      exact absurd h (by simp)
    · intro c0' hc0'
      exact ⟨newCompletionRow s.nextCompletionId hid d habit, hfind2,
        rfl, rfl, rfl, fun he => ⟨he.1.symm, he.2.1.symm, he.2.2.symm⟩⟩

/-- Habit used by the C3 concrete inputs: current name "A". -/
def hab3 : Habit := ⟨1, "A", "", 0, "x"⟩

/-- Store used by the C3 counterexample: habit 1 currently named "A", but the
existing completion row for (1, day 5) froze the name "B" (the habit was
renamed after the row was created). -/
def sC3 : Store := ⟨[hab3], [⟨1, 1, 5, true, "B", "", "x"⟩], 2, 2⟩

/-- Result of toggling (1, 5) twice on `sC3`: the pre-existing row (frozen
name "B") is deleted and a fresh row frozen from the habit's current fields
(name "A") replaces it. -/
def sC3b : Store := ⟨[hab3], [⟨2, 1, 5, true, "A", "", "x"⟩], 2, 3⟩

/-- C3 counterexample: toggling (habit 1, day 5) twice on `sC3` does NOT
restore the prior frozen fields.  Before the two toggles a completion row
for (1, 5) exists with frozen name "B"; afterwards a row for (1, 5) exists
but no row carries the frozen name "B" any more — the re-created row froze
the habit's current name "A" instead. -/
theorem c3_counterexample :
    toggleTwice sC3 1 5 = Except.ok sC3b ∧
    (∃ c ∈ sC3.completions, completionMatches 1 5 c ∧ c.name = "B") ∧
    (∀ c ∈ sC3b.completions, completionMatches 1 5 c ∧ c.name = "A") ∧
    ¬ (∃ c ∈ sC3b.completions, c.name = "B") := by
  refine ⟨rfl, by decide, by decide, by decide⟩

/-- C3 witness: the amended statement applied to the concrete store `sC3`. -/
theorem c3_toggle_twice_witness :
    ∃ s2, toggleTwice sC3 1 5 = Except.ok s2 ∧ s2.habits = sC3.habits ∧
      ((∃ c ∈ s2.completions, completionMatches 1 5 c) ↔
        (∃ c ∈ sC3.completions, completionMatches 1 5 c)) ∧
      (sC3.completions.find? (completionMatches 1 5) = none →
        s2.completions = sC3.completions) ∧
      (∀ c0, sC3.completions.find? (completionMatches 1 5) = some c0 →
        ∃ c2, s2.completions.find? (completionMatches 1 5) = some c2 ∧
          c2.name = hab3.name ∧ c2.description = hab3.description ∧
          c2.time_of_day = hab3.time_of_day ∧
          (c0.name = hab3.name ∧ c0.description = hab3.description ∧
            c0.time_of_day = hab3.time_of_day →
            c2.name = c0.name ∧ c2.description = c0.description ∧
              c2.time_of_day = c0.time_of_day)) :=
  c3_toggle_twice sC3 1 5 hab3 (by rfl) (by decide)

/-- Invariant of the completion table: at most one row per (habit_id, date)
pair, and every row has its completed flag set. -/
def completionsOK (s : Store) : Prop :=
  (s.completions.map (fun c => (c.habit_id, c.date))).Nodup ∧
  ∀ c ∈ s.completions, c.completed = true

theorem completionsOK_of_sublist {s s' : Store}
    (hsub : s'.completions.Sublist s.completions) (h : completionsOK s) :
    completionsOK s' := by
  refine ⟨List.Nodup.sublist (List.Sublist.map _ hsub) h.1, ?_⟩
  intro c hc
  exact h.2 c (hsub.subset hc)

theorem applyOp_completionsOK {s : Store} (op : Op) (h : completionsOK s) :
    completionsOK (applyOp s op) := by
  cases op with
  | addHabit n ds t today => exact h
  | toggle hid day =>
    cases hf : s.habits.find? (fun hb => hb.id == hid) with
    | none => simpa [applyOp, toggle_completion, hf] using h
    | some habit =>
      cases hc : s.completions.find? (completionMatches hid day) with
      | some c0 =>
        have hred : applyOp s (Op.toggle hid day) =
            { s with completions :=
              s.completions.eraseP (completionMatches hid day) } := by
          simp [applyOp, toggle_completion, hf, hc]
        rw [hred]
        exact completionsOK_of_sublist (List.eraseP_sublist _) h
      | none =>
        have hred : applyOp s (Op.toggle hid day) =
            { s with
              completions := s.completions ++
                [newCompletionRow s.nextCompletionId hid day habit],
              nextCompletionId := s.nextCompletionId + 1 } := by
          simp [applyOp, toggle_completion, hf, hc]
        rw [hred]
        have hnotin : ((hid, day) : Nat × Int) ∉
            s.completions.map (fun c => (c.habit_id, c.date)) := by
          intro hmem
          obtain ⟨c, hcmem, hcpair⟩ := List.mem_map.mp hmem
          have hnm := List.find?_eq_none.mp hc c hcmem
          apply hnm
          have h1 : c.habit_id = hid := congrArg Prod.fst hcpair
          have h2 : c.date = day := congrArg Prod.snd hcpair
          simp [completionMatches, h1, h2]
        constructor
        · show ((s.completions ++
              [newCompletionRow s.nextCompletionId hid day habit]).map
                (fun c => (c.habit_id, c.date))).Nodup
          rw [List.map_append]
          refine List.Nodup.append h.1 (by simp) ?_
          intro p hp hq
          simp only [newCompletionRow, List.map_cons, List.map_nil,
            List.mem_singleton] at hq
          exact hnotin (hq ▸ hp)
        · show ∀ c ∈ s.completions ++
              [newCompletionRow s.nextCompletionId hid day habit],
              c.completed = true
          intro c hcmem
          rcases List.mem_append.mp hcmem with hl | hr
          · exact h.2 c hl
          · rw [List.mem_singleton.mp hr]
            rfl
  | resetWeek today =>
    exact completionsOK_of_sublist (List.filter_sublist _) h
  | deleteHabit hid =>
    cases hf : s.habits.find? (fun hb => hb.id == hid) with
    | none => simpa [applyOp, delete_habit, hf] using h
    | some habit =>
      have hred : applyOp s (Op.deleteHabit hid) =
          { s with
            completions := s.completions.filter
              (fun c => !(c.habit_id == habit.id)),
            habits := s.habits.eraseP (fun hb => hb.id == hid) } := by
        simp [applyOp, delete_habit, hf]
      rw [hred]
      exact completionsOK_of_sublist (List.filter_sublist _) h
  | editHabit hid n ds t =>
    cases hf : s.habits.find? (fun hb => hb.id == hid) with
    | none => simpa [applyOp, edit_habit, hf] using h
    | some habit => simpa [applyOp, edit_habit, hf] using h
  | updateTod hid t =>
    cases hf : s.habits.find? (fun hb => hb.id == hid) with
    | none => simpa [applyOp, update_time_of_day, hf] using h
    | some habit => simpa [applyOp, update_time_of_day, hf] using h

theorem runOps_completionsOK :
    ∀ (ops : List Op) (s : Store), completionsOK s →
      completionsOK (runOps ops s)
  | [], _, h => h
  | op :: ops, s, h =>
      runOps_completionsOK ops (applyOp s op) (applyOp_completionsOK op h)

/-- C6: starting from the empty store, after any sequence of public requests
(add habit, toggle, reset week, delete habit, edit habit, update
time-of-day) the completion table has at most one row per (habit_id, date)
pair and every row present has its completed flag set to true. -/
theorem c6_completion_invariant (ops : List Op) :
    completionsOK (runOps ops emptyStore) :=
  runOps_completionsOK ops emptyStore ⟨by simp [emptyStore], by simp [emptyStore]⟩

/-- No completion row references a nonexistent habit. -/
def noOrphans (s : Store) : Prop :=
  ∀ c ∈ s.completions, c.habit_id ∈ s.habits.map (fun h => h.id)

/-- Primary-key discipline of the habit table: ids are pairwise distinct and
below the autoincrement counter. -/
def habitIdsOK (s : Store) : Prop :=
  (s.habits.map (fun h => h.id)).Nodup ∧
  ∀ x ∈ s.habits.map (fun h => h.id), x < s.nextHabitId

theorem modifyFirst_map_eq {α β : Type} (p : α → Bool) (f : α → α)
    (g : α → β) (hg : ∀ a, g (f a) = g a) :
    ∀ l : List α, (modifyFirst p f l).map g = l.map g
  | [] => rfl
  | x :: xs => by
    unfold modifyFirst
    by_cases hx : p x
    · simp [hx, hg]
    · simp [hx, modifyFirst_map_eq p f g hg xs]

theorem mem_map_eraseP_of_ne {hid : Nat} :
    ∀ {l : List Habit} {x : Nat},
      x ∈ l.map (fun h => h.id) → x ≠ hid →
      x ∈ (l.eraseP (fun h => h.id == hid)).map (fun h => h.id)
  | [], x, hx, _ => by simp at hx
  | h0 :: l, x, hx, hne => by
    rw [List.map_cons] at hx
    by_cases hp : (h0.id == hid) = true
    · have he : (h0 :: l).eraseP (fun h => h.id == hid) = l :=
        List.eraseP_cons_of_pos hp
      have hid0 : h0.id = hid := by simpa using hp
      rw [he]
      rcases List.mem_cons.mp hx with h1 | h1
      · exact absurd (h1.trans hid0) hne
      · exact h1
    · have he : (h0 :: l).eraseP (fun h => h.id == hid)
          = h0 :: l.eraseP (fun h => h.id == hid) :=
        List.eraseP_cons_of_neg hp
      rw [he, List.map_cons]
      rcases List.mem_cons.mp hx with h1 | h1
      · exact List.mem_cons.mpr (Or.inl h1)
      · exact List.mem_cons.mpr (Or.inr (mem_map_eraseP_of_ne h1 hne))

theorem not_mem_map_eraseP {hid : Nat} :
    ∀ {l : List Habit}, (l.map (fun h => h.id)).Nodup →
      hid ∉ (l.eraseP (fun h => h.id == hid)).map (fun h => h.id)
  | [], _ => by simp
  | h0 :: l, hnd => by
    rw [List.map_cons, List.nodup_cons] at hnd
    by_cases hp : (h0.id == hid) = true
    · have he : (h0 :: l).eraseP (fun h => h.id == hid) = l :=
        List.eraseP_cons_of_pos hp
      have hid0 : h0.id = hid := by simpa using hp
      rw [he, ← hid0]
      exact hnd.1
    · have he : (h0 :: l).eraseP (fun h => h.id == hid)
          = h0 :: l.eraseP (fun h => h.id == hid) :=
        List.eraseP_cons_of_neg hp
      rw [he, List.map_cons]
      intro hmem
      rcases List.mem_cons.mp hmem with h1 | h1
      · exact hp (by simp [h1])
      · exact not_mem_map_eraseP hnd.2 h1

theorem applyOp_invariants {s : Store} (op : Op)
    (hno : noOrphans s) (hids : habitIdsOK s) :
    noOrphans (applyOp s op) ∧ habitIdsOK (applyOp s op) := by
  cases op with
  | addHabit n ds t today =>
    refine ⟨?_, ?_, ?_⟩
    · intro c hc
      show c.habit_id ∈ (s.habits ++
        [(⟨s.nextHabitId, n, ds.getD "", today, t.getD "⛅️"⟩ : Habit)]).map
          (fun h => h.id)
      rw [List.map_append]
      exact List.mem_append_left _ (hno c hc)
    · show ((s.habits ++
        [(⟨s.nextHabitId, n, ds.getD "", today, t.getD "⛅️"⟩ : Habit)]).map
          (fun h => h.id)).Nodup
      rw [List.map_append]
      refine List.Nodup.append hids.1 (by simp) ?_
      intro x hx hx2
      simp only [List.map_cons, List.map_nil, List.mem_singleton] at hx2
      have := hids.2 x hx
      omega
    · show ∀ x ∈ (s.habits ++
        [(⟨s.nextHabitId, n, ds.getD "", today, t.getD "⛅️"⟩ : Habit)]).map
          (fun h => h.id), x < s.nextHabitId + 1
      intro x hx
      rw [List.map_append] at hx
      rcases List.mem_append.mp hx with h1 | h1
      · exact Nat.lt_succ_of_lt (hids.2 x h1)
      · simp only [List.map_cons, List.map_nil, List.mem_singleton] at h1
        omega
  | toggle hid day =>
    cases hf : s.habits.find? (fun hb => hb.id == hid) with
    | none =>
      have hred : applyOp s (Op.toggle hid day) = s := by
        simp [applyOp, toggle_completion, hf]
      rw [hred]
      exact ⟨hno, hids⟩
    | some habit =>
      cases hc : s.completions.find? (completionMatches hid day) with
      | some c0 =>
        have hred : applyOp s (Op.toggle hid day) =
            { s with completions :=
              s.completions.eraseP (completionMatches hid day) } := by
          simp [applyOp, toggle_completion, hf, hc]
        rw [hred]
        refine ⟨?_, hids⟩
        intro c hcm
        exact hno c ((List.eraseP_sublist _).subset hcm)
      | none =>
        have hred : applyOp s (Op.toggle hid day) =
            { s with
              completions := s.completions ++
                [newCompletionRow s.nextCompletionId hid day habit],
              nextCompletionId := s.nextCompletionId + 1 } := by
          simp [applyOp, toggle_completion, hf, hc]
        rw [hred]
        refine ⟨?_, hids⟩
        intro c hcm
        rcases List.mem_append.mp hcm with h1 | h1
        · exact hno c h1
        · rw [List.mem_singleton.mp h1]
          show hid ∈ s.habits.map (fun h => h.id)
          have hmem := List.mem_of_find?_eq_some hf
          have hbeq : habit.id = hid := by simpa using List.find?_some hf
          exact List.mem_map.mpr ⟨habit, hmem, hbeq⟩
  | resetWeek today =>
    refine ⟨?_, hids⟩
    intro c hcm
    exact hno c ((List.filter_sublist _).subset hcm)
  | deleteHabit hid =>
    cases hf : s.habits.find? (fun hb => hb.id == hid) with
    | none =>
      have hred : applyOp s (Op.deleteHabit hid) = s := by
        simp [applyOp, delete_habit, hf]
      rw [hred]
      exact ⟨hno, hids⟩
    | some habit =>
      have hbeq : habit.id = hid := by simpa using (List.find?_some hf)
      have hred : applyOp s (Op.deleteHabit hid) =
          { s with
            completions := s.completions.filter
              (fun c => !(c.habit_id == habit.id)),
            habits := s.habits.eraseP (fun hb => hb.id == hid) } := by
        simp [applyOp, delete_habit, hf]
      rw [hred]
      refine ⟨?_, ?_, ?_⟩
      · intro c hcm
        have hcm' := List.mem_filter.mp hcm
        have hne : c.habit_id ≠ hid := by
          have := hcm'.2
          simp only [Bool.not_eq_eq_eq_not, Bool.not_true, beq_eq_false_iff_ne,
            ne_eq] at this
          simpa [hbeq] using this
        exact mem_map_eraseP_of_ne (hno c hcm'.1) hne
      · exact List.Nodup.sublist
          (List.Sublist.map _ (List.eraseP_sublist _)) hids.1
      · intro x hx
        exact hids.2 x ((List.Sublist.map _ (List.eraseP_sublist _)).subset hx)
  | editHabit hid n ds t =>
    cases hf : s.habits.find? (fun hb => hb.id == hid) with
    | none =>
      have hred : applyOp s (Op.editHabit hid n ds t) = s := by
        simp [applyOp, edit_habit, hf]
      rw [hred]
      exact ⟨hno, hids⟩
    | some habit =>
      have hred : applyOp s (Op.editHabit hid n ds t) =
          { s with
            habits := modifyFirst (fun hb => hb.id == hid)
              (fun hb => { hb with name := n, description := ds,
                                   time_of_day := t }) s.habits } := by
        simp [applyOp, edit_habit, hf]
      rw [hred]
      have hmap := modifyFirst_map_eq (fun hb : Habit => hb.id == hid)
        (fun hb => { hb with name := n, description := ds, time_of_day := t })
        (fun hb => hb.id) (fun a => rfl) s.habits
      refine ⟨?_, ?_, ?_⟩
      · intro c hcm
        show c.habit_id ∈ _
        rw [hmap]
        exact hno c hcm
      · show (List.map _ _).Nodup
        rw [hmap]
        exact hids.1
      · intro x hx
        rw [hmap] at hx
        exact hids.2 x hx
  | updateTod hid t =>
    cases hf : s.habits.find? (fun hb => hb.id == hid) with
    | none =>
      have hred : applyOp s (Op.updateTod hid t) = s := by
        simp [applyOp, update_time_of_day, hf]
      rw [hred]
      exact ⟨hno, hids⟩
    | some habit =>
      have hred : applyOp s (Op.updateTod hid t) =
          { s with
            habits := modifyFirst (fun hb => hb.id == hid)
              (fun hb => { hb with time_of_day := t }) s.habits } := by
        simp [applyOp, update_time_of_day, hf]
      rw [hred]
      have hmap := modifyFirst_map_eq (fun hb : Habit => hb.id == hid)
        (fun hb => { hb with time_of_day := t })
        (fun hb => hb.id) (fun a => rfl) s.habits
      refine ⟨?_, ?_, ?_⟩
      · intro c hcm
        show c.habit_id ∈ _
        rw [hmap]
        exact hno c hcm
      · show (List.map _ _).Nodup
        rw [hmap]
        exact hids.1
      · intro x hx
        rw [hmap] at hx
        exact hids.2 x hx

theorem runOps_invariants :
    ∀ (ops : List Op) (s : Store), noOrphans s → habitIdsOK s →
      noOrphans (runOps ops s) ∧ habitIdsOK (runOps ops s)
  | [], _, hno, hids => ⟨hno, hids⟩
  | op :: ops, s, hno, hids =>
      runOps_invariants ops (applyOp s op)
        (applyOp_invariants op hno hids).1 (applyOp_invariants op hno hids).2

/-- C10: starting from the empty store, no sequence of requests ever leaves
a completion row pointing at a nonexistent habit; and whenever delete-habit
succeeds on a reachable store it removes exactly the completion rows of that
habit (the survivors are the original table filtered to other habit ids),
removes the habit itself (its id no longer occurs in the habit table), and
leaves no orphan rows. -/
theorem c10_cascade_delete :
    (∀ ops : List Op, noOrphans (runOps ops emptyStore)) ∧
    (∀ (ops : List Op) (hid : Nat) (s' : Store),
      delete_habit (runOps ops emptyStore) hid = Except.ok s' →
      (∀ c ∈ s'.completions, c.habit_id ≠ hid) ∧
      hid ∉ s'.habits.map (fun h => h.id) ∧
      s'.completions = (runOps ops emptyStore).completions.filter
        (fun c => !(c.habit_id == hid)) ∧
      noOrphans s') := by
  have hbase_no : noOrphans emptyStore := by
    intro c hc
    simp [emptyStore] at hc
  have hbase_ids : habitIdsOK emptyStore :=
    ⟨by simp [emptyStore], by simp [emptyStore]⟩
  have hrun := fun ops => runOps_invariants ops emptyStore hbase_no hbase_ids
  refine ⟨fun ops => (hrun ops).1, ?_⟩
  intro ops hid s' h
  unfold delete_habit at h
  split at h
  · exact absurd h (by simp)
  · rename_i habit hf
    simp only [Except.ok.injEq] at h
    subst h
    have hbeq : habit.id = hid := by simpa using List.find?_some hf
    refine ⟨?_, ?_, ?_, ?_⟩
    · intro c hc
      have hc' := List.mem_filter.mp hc
      have h2 := hc'.2
      simp only [Bool.not_eq_eq_eq_not, Bool.not_true, beq_eq_false_iff_ne,
        ne_eq] at h2
      simpa [hbeq] using h2
    · show hid ∉ ((runOps ops emptyStore).habits.eraseP
        (fun hb => hb.id == hid)).map (fun h => h.id)
      exact not_mem_map_eraseP (hrun ops).2.1
    · show (runOps ops emptyStore).completions.filter
          (fun c => !(c.habit_id == habit.id))
        = (runOps ops emptyStore).completions.filter
          (fun c => !(c.habit_id == hid))
      rw [hbeq]
    · intro c hc
      have hc' := List.mem_filter.mp hc
      have h2 := hc'.2
      simp only [Bool.not_eq_eq_eq_not, Bool.not_true, beq_eq_false_iff_ne,
        ne_eq] at h2
      have hcne : c.habit_id ≠ hid := by simpa [hbeq] using h2
      exact mem_map_eraseP_of_ne ((hrun ops).1 c hc'.1) hcne

/-- Request sequence used by the C10 witness: create habit 1 and complete it
on day 5. -/
def ops10 : List Op := [Op.addHabit "Read" none none 0, Op.toggle 1 5]

/-- Store obtained by deleting habit 1 after `ops10`: both tables empty. -/
def s10d : Store := ⟨[], [], 2, 2⟩

/-- C10 witness: deleting habit 1 on the concrete reachable store removes
its completion row, removes the habit, and leaves no orphans. -/
theorem c10_cascade_delete_witness :
    (∀ c ∈ s10d.completions, c.habit_id ≠ 1) ∧
    1 ∉ s10d.habits.map (fun h => h.id) ∧
    s10d.completions = (runOps ops10 emptyStore).completions.filter
      (fun c => !(c.habit_id == 1)) ∧
    noOrphans s10d :=
  c10_cascade_delete.2 ops10 1 s10d (by rfl)

/-- `time_order = {'⛅️': 0, '☀️': 1, '🌇': 2, '🌠': 3}` with fallback
`time_order.get(h.time_of_day, 4)` (app.py:49, 51). -/
def time_order (t : String) : Nat :=
  if t = "⛅️" then 0 else if t = "☀️" then 1
  else if t = "🌇" then 2 else if t = "🌠" then 3 else 4

/-- Comparison of the Python sort keys
`(time_order.get(h.time_of_day, 4), h.name.lower())` (app.py:51): tuples
compare lexicographically. -/
def habitLE (h1 h2 : Habit) : Prop :=
  time_order h1.time_of_day < time_order h2.time_of_day ∨
    (time_order h1.time_of_day = time_order h2.time_of_day ∧
      h1.name.toLower ≤ h2.name.toLower)

/-- Strict lexicographic comparison of the sort keys. -/
def habitKeyLT (h1 h2 : Habit) : Prop :=
  time_order h1.time_of_day < time_order h2.time_of_day ∨
    (time_order h1.time_of_day = time_order h2.time_of_day ∧
      h1.name.toLower < h2.name.toLower)

instance : DecidableRel habitLE := fun h1 h2 => by
  unfold habitLE
  infer_instance

instance : DecidableRel habitKeyLT := fun h1 h2 => by
  unfold habitKeyLT
  infer_instance

instance : IsTotal Habit habitLE := ⟨by
  intro a b
  unfold habitLE
  rcases Nat.lt_trichotomy (time_order a.time_of_day)
    (time_order b.time_of_day) with h | h | h
  · exact Or.inl (Or.inl h)
  · rcases le_total a.name.toLower b.name.toLower with hle | hle
    · exact Or.inl (Or.inr ⟨h, hle⟩)
    · exact Or.inr (Or.inr ⟨h.symm, hle⟩)
  · exact Or.inr (Or.inl h)⟩

instance : IsTrans Habit habitLE := ⟨by
  intro a b c hab hbc
  unfold habitLE at hab hbc ⊢
  rcases hab with h1 | ⟨h1, h1s⟩
  · rcases hbc with h2 | ⟨h2, h2s⟩
    · exact Or.inl (h1.trans h2)
    · exact Or.inl (lt_of_lt_of_eq h1 h2)
  · rcases hbc with h2 | ⟨h2, h2s⟩
    · exact Or.inl (lt_of_eq_of_lt h1 h2)
    · exact Or.inr ⟨h1.trans h2, le_trans h1s h2s⟩⟩

/-- `habits.sort(key=lambda h: (time_order.get(h.time_of_day, 4), h.name.lower()))`
(app.py:50-51).  Python's `list.sort` is a stable sort by this key, and any
two stable sorts under the same total preorder produce the same output list,
so the stable `insertionSort` over `habitLE` models it exactly. -/
def sortHabits (hs : List Habit) : List Habit := List.insertionSort habitLE hs

theorem habitLE_refl (a : Habit) : habitLE a a := Or.inr ⟨rfl, le_refl _⟩

theorem not_habitLE_of_habitKeyLT {a b : Habit} (hlt : habitKeyLT a b) :
    ¬ habitLE b a := by
  intro hle
  unfold habitKeyLT at hlt
  unfold habitLE at hle
  rcases hlt with h1 | ⟨h1, h1s⟩
  · rcases hle with h2 | ⟨h2, h2s⟩
    · omega
    · omega
  · rcases hle with h2 | ⟨h2, h2s⟩
    · omega
    · exact absurd h1s (not_lt.mpr h2s)

/-- C9 (amended): the index view sorts habits by the key
(time-of-day rank, lowercased name): the output is a permutation of the
habit table, its keys are in nondecreasing lexicographic order, and whenever
one habit's key is strictly lexicographically below another's, the first
strictly precedes the second in the output.  (For two habits with EQUAL
keys the original claim's "iff" fails: one still precedes the other while
neither key is strictly smaller; the stable sort keeps their input order.) -/
theorem c9_sort_order (hs : List Habit) :
    List.Perm (sortHabits hs) hs ∧
    (sortHabits hs).Sorted habitLE ∧
    (∀ i j : Fin (sortHabits hs).length,
      habitKeyLT ((sortHabits hs).get i) ((sortHabits hs).get j) → i < j) := by
  refine ⟨List.perm_insertionSort habitLE hs,
    List.sorted_insertionSort habitLE hs, ?_⟩
  intro i j hlt
  by_contra hij
  push_neg at hij
  rcases eq_or_lt_of_le hij with heq | hlt2
  · rw [heq] at hlt
    exact not_habitLE_of_habitKeyLT hlt (habitLE_refl _)
  · exact not_habitLE_of_habitKeyLT hlt
      ((List.sorted_insertionSort habitLE hs).rel_get_of_lt hlt2)

/-- First habit of the C9 counterexample: key (1, "a"). -/
def hA9 : Habit := ⟨1, "a", "", 0, "☀️"⟩

/-- Second habit of the C9 counterexample: same key (1, "a"), distinct row. -/
def hB9 : Habit := ⟨2, "a", "", 0, "☀️"⟩

/-- C9 counterexample: two distinct habits with the same time-of-day tag and
the same lowercase name.  In the sorted output `hA9` precedes `hB9` (index 0
before index 1), yet `hA9`'s key is NOT lexicographically less than `hB9`'s
— so "h1 precedes h2 if and only if key(h1) < key(h2)" is false as an iff. -/
theorem c9_counterexample :
    sortHabits [hA9, hB9] = [hA9, hB9] ∧ hA9 ≠ hB9 ∧
    ¬ habitKeyLT hA9 hB9 := by
  have hle : habitLE hA9 hB9 := Or.inr ⟨rfl, le_refl _⟩
  refine ⟨by simp [sortHabits, hle], by decide, ?_⟩
  intro hlt
  rcases hlt with h | ⟨h, hs1⟩
  · exact absurd h (by decide)
  · exact lt_irrefl _ hs1

/-- Habits with distinct keys for the C9 witness. -/
def hC9 : Habit := ⟨1, "b", "", 0, "☀️"⟩

/-- Second witness habit, whose key ranks strictly first. -/
def hD9 : Habit := ⟨2, "a", "", 0, "⛅️"⟩

/-- Index 0 of the sorted witness list.  (The two keys differ already in
their time-of-day ranks, so evaluating the sort never compares strings.) -/
def i9 : Fin (sortHabits [hC9, hD9]).length := ⟨0, by decide⟩

/-- Index 1 of the sorted witness list. -/
def j9 : Fin (sortHabits [hC9, hD9]).length := ⟨1, by decide⟩

/-- C9 witness: on the concrete two-habit list, the habit with the strictly
smaller key ends up strictly earlier. -/
theorem c9_sort_order_witness : i9 < j9 :=
  (c9_sort_order [hC9, hD9]).2.2 i9 j9 (by decide)

/-- Primary-key discipline of the completion table: row ids are pairwise
distinct and below the autoincrement counter. -/
def completionIdsOK (s : Store) : Prop :=
  (s.completions.map (fun c => c.id)).Nodup ∧
  ∀ x ∈ s.completions.map (fun c => c.id), x < s.nextCompletionId

theorem applyOp_completionIdsOK {s : Store} (op : Op)
    (h : completionIdsOK s) : completionIdsOK (applyOp s op) := by
  cases op with
  | addHabit n ds t today => exact h
  | toggle hid day =>
    cases hf : s.habits.find? (fun hb => hb.id == hid) with
    | none =>
      have hred : applyOp s (Op.toggle hid day) = s := by
        simp [applyOp, toggle_completion, hf]
      rw [hred]
      exact h
    | some habit =>
      cases hc : s.completions.find? (completionMatches hid day) with
      | some c0 =>
        have hred : applyOp s (Op.toggle hid day) =
            { s with completions :=
              s.completions.eraseP (completionMatches hid day) } := by
          simp [applyOp, toggle_completion, hf, hc]
        rw [hred]
        refine ⟨?_, ?_⟩
        · exact List.Nodup.sublist
            (List.Sublist.map _ (List.eraseP_sublist _)) h.1
        · intro x hx
          exact h.2 x ((List.Sublist.map _ (List.eraseP_sublist _)).subset hx)
      | none =>
        have hred : applyOp s (Op.toggle hid day) =
            { s with
              completions := s.completions ++
                [newCompletionRow s.nextCompletionId hid day habit],
              nextCompletionId := s.nextCompletionId + 1 } := by
          simp [applyOp, toggle_completion, hf, hc]
        rw [hred]
        constructor
        · show ((s.completions ++
            [newCompletionRow s.nextCompletionId hid day habit]).map
              (fun c => c.id)).Nodup
          rw [List.map_append]
          refine List.Nodup.append h.1 (by simp) ?_
          intro x hx hx2
          simp only [newCompletionRow, List.map_cons, List.map_nil,
            List.mem_singleton] at hx2
          have := h.2 x hx
          omega
        · show ∀ x ∈ (s.completions ++
            [newCompletionRow s.nextCompletionId hid day habit]).map
              (fun c => c.id), x < s.nextCompletionId + 1
          intro x hx
          rw [List.map_append] at hx
          rcases List.mem_append.mp hx with h1 | h1
          · exact Nat.lt_succ_of_lt (h.2 x h1)
          · simp only [newCompletionRow, List.map_cons, List.map_nil,
              List.mem_singleton] at h1
            omega
  | resetWeek today =>
    refine ⟨?_, ?_⟩
    · exact List.Nodup.sublist
        (List.Sublist.map _ (List.filter_sublist _)) h.1
    · intro x hx
      exact h.2 x ((List.Sublist.map _ (List.filter_sublist _)).subset hx)
  | deleteHabit hid =>
    cases hf : s.habits.find? (fun hb => hb.id == hid) with
    | none =>
      have hred : applyOp s (Op.deleteHabit hid) = s := by
        simp [applyOp, delete_habit, hf]
      rw [hred]
      exact h
    | some habit =>
      have hred : applyOp s (Op.deleteHabit hid) =
          { s with
            completions := s.completions.filter
              (fun c => !(c.habit_id == habit.id)),
            habits := s.habits.eraseP (fun hb => hb.id == hid) } := by
        simp [applyOp, delete_habit, hf]
      rw [hred]
      refine ⟨?_, ?_⟩
      · exact List.Nodup.sublist
          (List.Sublist.map _ (List.filter_sublist _)) h.1
      · intro x hx
        exact h.2 x ((List.Sublist.map _ (List.filter_sublist _)).subset hx)
  | editHabit hid n ds t =>
    cases hf : s.habits.find? (fun hb => hb.id == hid) with
    | none => simpa [applyOp, edit_habit, hf] using h
    | some habit => simpa [applyOp, edit_habit, hf] using h
  | updateTod hid t =>
    cases hf : s.habits.find? (fun hb => hb.id == hid) with
    | none => simpa [applyOp, update_time_of_day, hf] using h
    | some habit => simpa [applyOp, update_time_of_day, hf] using h

theorem runOps_completionIdsOK :
    ∀ (ops : List Op) (s : Store), completionIdsOK s →
      completionIdsOK (runOps ops s)
  | [], _, h => h
  | op :: ops, s, h =>
      runOps_completionIdsOK ops (applyOp s op) (applyOp_completionIdsOK op h)

/-- C7: completion rows are immutable once created.  Editing a habit or
updating its time-of-day leaves the completion table literally unchanged;
the primary-key discipline (distinct row ids, all below the autoincrement
counter) holds on every store reachable from the empty one; and under that
discipline NO operation modifies a row in place: any row present after an
operation that shares its id with a pre-existing row IS that row, all
frozen snapshot fields identical.  (A program that rewrote the frozen
fields of a surviving row would violate the last conjunct, since the
rewritten row keeps its id but equals no pre-state row.) -/
theorem c7_frozen_fields :
    (∀ s hid n ds t s', edit_habit s hid n ds t = Except.ok s' →
       s'.completions = s.completions) ∧
    (∀ s hid t s', update_time_of_day s hid t = Except.ok s' →
       s'.completions = s.completions) ∧
    (∀ ops : List Op, completionIdsOK (runOps ops emptyStore)) ∧
    (∀ (s : Store) (op : Op) (c c' : Completion), completionIdsOK s →
       c ∈ s.completions → c' ∈ (applyOp s op).completions →
       c'.id = c.id → c' = c) := by
  refine ⟨?_, ?_, ?_, ?_⟩
  · intro s hid n ds t s' h
    unfold edit_habit at h
    split at h
    · exact absurd h (by simp)
    · simp only [Except.ok.injEq] at h
      subst h
      rfl
  · intro s hid t s' h
    unfold update_time_of_day at h
    split at h
    · exact absurd h (by simp)
    · simp only [Except.ok.injEq] at h
      subst h
      rfl
  · intro ops
    exact runOps_completionIdsOK ops emptyStore
      ⟨by simp [emptyStore], by simp [emptyStore]⟩
  · intro s op c c' hids hc hc' hid
    have hsame : ∀ {l' : List Completion}, l'.Sublist s.completions →
        c' ∈ l' → c' = c := by
      intro l' hsub hc'2
      exact List.inj_on_of_nodup_map hids.1 (hsub.subset hc'2) hc hid
    cases op with
    | addHabit n ds t today => exact hsame (List.Sublist.refl _) hc'
    | toggle hid2 day =>
      cases hf : s.habits.find? (fun hb => hb.id == hid2) with
      | none =>
        have hred : applyOp s (Op.toggle hid2 day) = s := by
          simp [applyOp, toggle_completion, hf]
        rw [hred] at hc'
        exact hsame (List.Sublist.refl _) hc'
      | some habit =>
        cases hcf : s.completions.find? (completionMatches hid2 day) with
        | some c0 =>
          have hred : applyOp s (Op.toggle hid2 day) =
              { s with completions :=
                s.completions.eraseP (completionMatches hid2 day) } := by
            simp [applyOp, toggle_completion, hf, hcf]
          rw [hred] at hc'
          exact hsame (List.eraseP_sublist _) hc'
        | none =>
          have hred : applyOp s (Op.toggle hid2 day) =
              { s with
                completions := s.completions ++
                  [newCompletionRow s.nextCompletionId hid2 day habit],
                nextCompletionId := s.nextCompletionId + 1 } := by
            simp [applyOp, toggle_completion, hf, hcf]
          rw [hred] at hc'
          rcases List.mem_append.mp hc' with h1 | h1
          · exact hsame (List.Sublist.refl _) h1
          · exfalso
            have hcid : c.id < s.nextCompletionId :=
              hids.2 c.id (List.mem_map.mpr ⟨c, hc, rfl⟩)
            have hnew : c'.id = s.nextCompletionId := by
              rw [List.mem_singleton.mp h1]
              rfl
            omega
    | resetWeek today => exact hsame (List.filter_sublist _) hc'
    | deleteHabit hid2 =>
      cases hf : s.habits.find? (fun hb => hb.id == hid2) with
      | none =>
        have hred : applyOp s (Op.deleteHabit hid2) = s := by
          simp [applyOp, delete_habit, hf]
        rw [hred] at hc'
        exact hsame (List.Sublist.refl _) hc'
      | some habit =>
        have hred : applyOp s (Op.deleteHabit hid2) =
            { s with
              completions := s.completions.filter
                (fun cc => !(cc.habit_id == habit.id)),
              habits := s.habits.eraseP (fun hb => hb.id == hid2) } := by
          simp [applyOp, delete_habit, hf]
        rw [hred] at hc'
        exact hsame (List.filter_sublist _) hc'
    | editHabit hid2 n ds t =>
      cases hf : s.habits.find? (fun hb => hb.id == hid2) with
      | none =>
        have hred : applyOp s (Op.editHabit hid2 n ds t) = s := by
          simp [applyOp, edit_habit, hf]
        rw [hred] at hc'
        exact hsame (List.Sublist.refl _) hc'
      | some habit =>
        have hred : (applyOp s (Op.editHabit hid2 n ds t)).completions
            = s.completions := by
          simp [applyOp, edit_habit, hf]
        rw [hred] at hc'
        exact hsame (List.Sublist.refl _) hc'
    | updateTod hid2 t =>
      cases hf : s.habits.find? (fun hb => hb.id == hid2) with
      | none =>
        have hred : applyOp s (Op.updateTod hid2 t) = s := by
          simp [applyOp, update_time_of_day, hf]
        rw [hred] at hc'
        exact hsame (List.Sublist.refl _) hc'
      | some habit =>
        have hred : (applyOp s (Op.updateTod hid2 t)).completions
            = s.completions := by
          simp [applyOp, update_time_of_day, hf]
        rw [hred] at hc'
        exact hsame (List.Sublist.refl _) hc'

/-- Reachable store used by the C7 witness: habit 1 ("Read") with a
completion row on day 5. -/
def sW7 : Store := runOps [Op.addHabit "Read" none none 0, Op.toggle 1 5] emptyStore

/-- The completion row of `sW7`. -/
def cW7 : Completion := ⟨1, 1, 5, true, "Read", "", "⛅️"⟩

/-- C7 witness: a concrete successful edit leaves the completion table
unchanged, and on the concrete reachable store the row that survives an
edit request and keeps id 1 is literally the original row. -/
theorem c7_frozen_fields_witness :
    st7e.completions = st7.completions ∧ cW7 = cW7 :=
  ⟨c7_frozen_fields.1 st7 1 "x" "y" "z" st7e (by rfl),
    c7_frozen_fields.2.2.2 sW7 (Op.editHabit 1 "x" "y" "z") cW7 cW7
      ⟨by decide, by decide⟩ (by decide) (by decide) rfl⟩
